import Mathlib

/-!
# Verification of pykale utility modules

A shallow embedding of the Python sources of this repository:

* `kale/embed/_mpca.py` — the MPCA estimator (`_check_ndim`, `_check_shape`,
  `_check_dim_shape`, `MPCA._fit`, `MPCA.fit`, `MPCA.transform`,
  `MPCA.inverse_transform`);
* `kale/prepdata/distance.py` — `DistanceMetric` and `calculate_distance`;
* `examples/leftnet_step_by_step/m2models/datasets/lmdb_dataset.py` —
  `LmdbDataset.__init__`, `connect_db`, `__len__`, `__getitem__`.

Numpy / torch tensors are modelled as a flat row-major (C-order) list of
rationals together with a shape; machine floats are abstracted to exact `ℚ`
arithmetic (and `np.linalg.eig` / `torch`'s square root, which are external
library calls, are abstracted as explicit function parameters).  Python
exceptions are modelled by the `PyError` type and `Except`/`Option` results.
-/

/-! ## Embedded definitions -/

/-- Python exceptions raised (or raisable) by the embedded code paths. -/
inductive PyError : Type where
  | valueError (msg : String)
  | attributeError (msg : String)
  | assertionError (msg : String)
  | typeError (msg : String)
  | indexError (msg : String)
deriving Repr, DecidableEq

deriving instance DecidableEq for Except

/-- A numpy `ndarray` over exact rationals: a shape together with the flat
row-major (C-order) data buffer. -/
structure Tensor : Type where
  shape : List ℕ
  data : List ℚ
deriving Repr, DecidableEq

instance : Inhabited Tensor := ⟨⟨[], []⟩⟩

/-- `ndarray.ndim`: the number of modes of the tensor. -/
def Tensor.ndim (x : Tensor) : ℕ := x.shape.length

/-- Row-major multi-index of flat position `l` with respect to `shape`. -/
def unflattenIx : List ℕ → ℕ → List ℕ
  | [], _ => []
  | _ :: t, l => (l / t.prod) :: unflattenIx t (l % t.prod)

/-- Row-major flat position of a multi-index with respect to `shape`. -/
def flattenIx : List ℕ → List ℕ → ℕ
  | [], _ => 0
  | _ :: t, ix => ix.headD 0 * t.prod + flattenIx t ix.tail

/-- Insert coordinate `a` at position `k` of a multi-index. -/
def insertCoord (xs : List ℕ) (k : ℕ) (a : ℕ) : List ℕ :=
  xs.take k ++ a :: xs.drop k

/-- Build a 2-D tensor (matrix) of shape `[r, c]` from an entry function. -/
def mkMat (r c : ℕ) (f : ℕ → ℕ → ℚ) : Tensor :=
  ⟨[r, c], (List.range (r * c)).map (fun l => f (l / c) (l % c))⟩

/-- Entry `(i, j)` of a 2-D tensor (out-of-range reads give `0`). -/
def Tensor.entry (A : Tensor) (i j : ℕ) : ℚ :=
  A.data.getD (i * A.shape.getD 1 0 + j) 0

/-- Number of rows of a 2-D tensor. -/
def Tensor.rows (A : Tensor) : ℕ := A.shape.getD 0 0

/-- Number of columns of a 2-D tensor. -/
def Tensor.cols (A : Tensor) : ℕ := A.shape.getD 1 0

/-- `A.T` for a 2-D array. -/
def Tensor.transpose2 (A : Tensor) : Tensor :=
  mkMat A.cols A.rows (fun i j => A.entry j i)

/-- `np.dot` of two 2-D arrays. -/
def matMul (A B : Tensor) : Tensor :=
  mkMat A.rows B.cols
    (fun i j => ((List.range A.cols).map (fun k => A.entry i k * B.entry k j)).sum)

/-- Elementwise sum of two same-shaped 2-D arrays. -/
def matAdd (A B : Tensor) : Tensor :=
  mkMat A.rows A.cols (fun i j => A.entry i j + B.entry i j)

/-- `np.zeros((r, c))`. -/
def zeroMat (r c : ℕ) : Tensor := mkMat r c (fun _ _ => 0)

/-- `A[:, p]` — fancy indexing of the columns of a 2-D array by an index
array `p`. -/
def colPerm (A : Tensor) (p : List ℕ) : Tensor :=
  mkMat A.rows p.length (fun i k => A.entry i (p.getD k 0))

/-- `A[:, :P]` — the leading columns of a 2-D array (a slice never reads past
the end, hence the `min`). -/
def sliceColsUpTo (A : Tensor) (P : ℕ) : Tensor :=
  mkMat A.rows (min P A.cols) (fun i k => A.entry i k)

/-- `np.diag` of a 2-D array: its main diagonal. -/
def matDiag (A : Tensor) : List ℚ :=
  (List.range (min A.rows A.cols)).map (fun k => A.entry k k)

/-- `tensorly.base.unfold(tensor, mode)`: move `mode` to the front and reshape
to `(shape[mode], -1)` in C order. -/
def Tensor.unfoldMode (T : Tensor) (m : ℕ) : Tensor :=
  let sm := T.shape.getD m 0
  let rest := T.shape.eraseIdx m
  let q := rest.prod
  ⟨[sm, q], (List.range (sm * q)).map (fun l =>
      T.data.getD (flattenIx T.shape (insertCoord (unflattenIx rest (l % q)) m (l / q))) 0)⟩

/-- `tensorly.base.fold(unfolded, mode, shape)`: inverse of `unfoldMode`. -/
def foldAt (U : Tensor) (m : ℕ) (shape : List ℕ) : Tensor :=
  let rest := shape.eraseIdx m
  let q := rest.prod
  ⟨shape, (List.range shape.prod).map (fun l =>
      let ix := unflattenIx shape l
      U.data.getD (ix.getD m 0 * q + flattenIx rest (ix.eraseIdx m)) 0)⟩

/-- `tensorly.tenalg.mode_dot(T, M, mode, transpose)`: fold the matrix product
of `M` (or `M.T`) with the mode-`m` unfolding of `T`. -/
def Tensor.mode_dot (T : Tensor) (M : Tensor) (m : ℕ) (transp : Bool) : Tensor :=
  let M2 := if transp then M.transpose2 else M
  foldAt (matMul M2 (T.unfoldMode m)) m (T.shape.set m M2.rows)

/-- `tensorly.tenalg.multi_mode_dot`: sequential `mode_dot` along the given
matrices and modes. -/
def multi_mode_dot (T : Tensor) (mats : List Tensor) (modes : List ℕ) (transp : Bool) : Tensor :=
  (mats.zip modes).foldl (fun acc pr => acc.mode_dot pr.1 pr.2 transp) T

/-- `X[j]` for a tensor whose mode 0 indexes samples: the `j`-th sample. -/
def Tensor.sampleSlice (X : Tensor) (j : ℕ) : Tensor :=
  ⟨X.shape.tail, (X.data.drop (j * X.shape.tail.prod)).take X.shape.tail.prod⟩

/-- `np.mean(X, axis=0)`. -/
def meanAxis0 (X : Tensor) : Tensor :=
  let q := X.shape.tail.prod
  let n := X.shape.headD 0
  ⟨X.shape.tail, (List.range q).map (fun k =>
      (((List.range n).map (fun j => X.data.getD (j * q + k) 0)).sum) / (n : ℚ))⟩

/-- `X - M` where `M` has the per-sample shape `X.shape[1:]` and is broadcast
over mode 0. -/
def subAxis0 (X M : Tensor) : Tensor :=
  let q := X.shape.tail.prod
  ⟨X.shape, (List.range X.data.length).map (fun l =>
      X.data.getD l 0 - M.data.getD (l % q) 0)⟩

/-- `X + M` with `M` broadcast over mode 0 (used by `inverse_transform` when
`add_mean=True`). -/
def addAxis0 (X M : Tensor) : Tensor :=
  let q := X.shape.tail.prod
  ⟨X.shape, (List.range X.data.length).map (fun l =>
      X.data.getD l 0 + M.data.getD (l % q) 0)⟩

/-- `_check_ndim(x, n_dim)` from `kale/embed/_mpca.py`.  On a mismatch the
source executes
`raise ValueError("..." % (n_dim, x.n_dim))`; evaluating the format operand
`x.n_dim` fails first, because `ndarray` has the attribute `ndim` but not
`n_dim`, so the call raises `AttributeError` instead of the intended
`ValueError`. -/
def check_ndim (x : Tensor) (n_dim : ℕ) : Except PyError Unit :=
  if x.ndim = n_dim then .ok ()
  else .error (.attributeError "n_dim")

/-- `_check_shape(x, shape_)`: raise `ValueError` when `x.shape[1:] != shape_`
(the message interpolates `x.shape[1:]` and `shape_`, in that order). -/
def check_shape (x : Tensor) (shape_ : List ℕ) : Except PyError Unit :=
  if x.shape.tail = shape_ then .ok ()
  else
    .error (.valueError ("The expected shape of data is " ++ toString x.shape.tail
      ++ ", but " ++ toString shape_ ++ " for given data"))

/-- `_check_dim_shape(x, n_dim, shape_)`: order check, then shape check. -/
def check_dim_shape (x : Tensor) (n_dim : ℕ) (shape_ : List ℕ) : Except PyError Unit := do
  check_ndim x n_dim
  check_shape x shape_

/-- The `DistanceMetric` enum; `COSINE` is its only member. -/
inductive DistanceMetric : Type where
  | COSINE
deriving Repr, DecidableEq

/-- `torch.norm(x, p=2, dim=1, keepdim=True)`: the row-wise L2 norm as an
`(n, 1)` column.  The floating-point square root is abstracted as an explicit
function parameter `sqrt`. -/
def torchNormDim1 {n d : ℕ} (sqrt : ℚ → ℚ) (x : Matrix (Fin n) (Fin d) ℚ) :
    Matrix (Fin n) (Fin 1) ℚ :=
  fun i _ => sqrt (∑ j, x i j ^ 2)

/-- `torch.mm`. -/
def torchMM {n k m : ℕ} (A : Matrix (Fin n) (Fin k) ℚ) (B : Matrix (Fin k) (Fin m) ℚ) :
    Matrix (Fin n) (Fin m) ℚ := A * B

/-- `Tensor.t()`. -/
def torchT {n m : ℕ} (A : Matrix (Fin n) (Fin m) ℚ) : Matrix (Fin m) (Fin n) ℚ :=
  A.transpose

/-- `w1 * w2.t()`: elementwise product of an `(n, 1)` and a `(1, m)` tensor,
broadcast to `(n, m)`. -/
def broadcastMul {n m : ℕ} (A : Matrix (Fin n) (Fin 1) ℚ) (B : Matrix (Fin 1) (Fin m) ℚ) :
    Matrix (Fin n) (Fin m) ℚ :=
  fun i j => A i 0 * B 0 j

/-- `t.clamp(min=c)`: elementwise lower clamp. -/
def clampMin {n m : ℕ} (A : Matrix (Fin n) (Fin m) ℚ) (c : ℚ) : Matrix (Fin n) (Fin m) ℚ :=
  fun i j => max (A i j) c

/-- Elementwise division of two `(n, m)` tensors. -/
def elemDiv {n m : ℕ} (A B : Matrix (Fin n) (Fin m) ℚ) : Matrix (Fin n) (Fin m) ℚ :=
  fun i j => A i j / B i j

/-- `calculate_distance(x1, x2, eps, metric)` with the optional `x2` argument
supplied: `torch.mm(x1, x2.t()) / (w1 * w2.t()).clamp(min=eps)`.  The enum has
a single member, so the trailing `raise Exception` branch is unreachable. -/
def calculate_distance {n m d : ℕ} (sqrt : ℚ → ℚ) (x1 : Matrix (Fin n) (Fin d) ℚ)
    (x2 : Matrix (Fin m) (Fin d) ℚ) (eps : ℚ) (metric : DistanceMetric) :
    Matrix (Fin n) (Fin m) ℚ :=
  match metric with
  | .COSINE =>
    let w1 := torchNormDim1 sqrt x1
    let w2 := torchNormDim1 sqrt x2
    elemDiv (torchMM x1 (torchT x2)) (clampMin (broadcastMul w1 (torchT w2)) eps)

/-- `calculate_distance(x1, x2, eps, metric)` with the optional `x2` argument
modelled: the source first executes `x2 = x1 if x2 is None else x2`; the later
test `w2 = w1 if x2 is None else torch.norm(x2, ...)` inspects the reassigned
`x2`, which is never `None`, so `w2` is always recomputed from `x2`. -/
def calculate_distanceOpt {n d : ℕ} (sqrt : ℚ → ℚ) (x1 : Matrix (Fin n) (Fin d) ℚ)
    (x2opt : Option (Matrix (Fin n) (Fin d) ℚ)) (eps : ℚ) (metric : DistanceMetric) :
    Matrix (Fin n) (Fin n) ℚ :=
  match metric with
  | .COSINE =>
    let x2 := x2opt.getD x1
    let w1 := torchNormDim1 sqrt x1
    let w2 := torchNormDim1 sqrt x2
    elemDiv (torchMM x1 (torchT x2)) (clampMin (broadcastMul w1 (torchT w2)) eps)

/-- An LMDB environment handle, recording the keyword arguments passed to
`lmdb.open` by `LmdbDataset.connect_db`. -/
structure Env : Type where
  path : String
  subdir : Bool
  readonly : Bool
  lock : Bool
  readahead : Bool
  meminit : Bool
  max_readers : ℕ
deriving Repr, DecidableEq

/-- `LmdbDataset.connect_db(lmdb_path)`: `lmdb.open(str(lmdb_path),
subdir=False, readonly=True, lock=False, readahead=False, meminit=False,
max_readers=1)`. -/
def connect_db (p : String) : Env :=
  { path := p, subdir := false, readonly := true, lock := false,
    readahead := false, meminit := false, max_readers := 1 }

/-- String suffix test (`*.lmdb` glob match), on the character list. -/
def strEndsWith (s suffix : String) : Bool :=
  suffix.data.isSuffixOf s.data

/-- `sorted(self.path.glob("*.lmdb"))`: the names in the source directory with
the `.lmdb` suffix, sorted. -/
def lmdbGlob (fs : List String) : List String :=
  (fs.filter (fun f => strEndsWith f ".lmdb")).insertionSort (fun a b => ¬ b.data < a.data)

/-- `np.cumsum(keylens).tolist()`: the list of inclusive prefix sums. -/
def cumsum : List ℕ → List ℕ
  | [] => []
  | a :: t => a :: (cumsum t).map (a + ·)

/-- The state built by `LmdbDataset.__init__`: the source path, the opened
environments, the per-database key lists (`list(range(length))` for the
pickled `length` entry of each database), their cumulative lengths and the
total sample count. -/
structure LmdbState : Type where
  path : String
  metadata_path : String
  envs : List Env
  keys : List (List ℕ)
  keylen_cumulative : List ℕ
  num_samples : ℕ
deriving Repr, DecidableEq

/-- `LmdbDataset.__init__`.  `fs` lists the file names in the source directory
`src`; `store p` abstracts `pickle.loads(env.begin().get(b"length"))` for the
database file `p`.  The result pairs the list of environments opened during
construction with the outcome: the `assert len(db_paths) > 0` failure
(`AssertionError: No LMDBs found in '...'`, modelled without the quotes)
happens before any environment is opened. -/
def lmdbInit (src : String) (fs : List String) (store : String → ℕ) :
    List Env × Except PyError LmdbState :=
  let db_paths := (lmdbGlob fs).map (fun f => src ++ "/" ++ f)
  if 0 < db_paths.length then
    let envs := db_paths.map connect_db
    let keys := db_paths.map (fun p => List.range (store p))
    let keylens := keys.map List.length
    ( envs,
      .ok { path := src, metadata_path := src ++ "/metadata.npz", envs := envs,
            keys := keys, keylen_cumulative := cumsum keylens,
            num_samples := keylens.sum } )
  else ([], .error (.assertionError ("No LMDBs found in " ++ src)))

/-- The inner loop of Python's `bisect.bisect` (= `bisect_right`), with the
remaining interval width as structural fuel. -/
def bisectAux (a : List ℕ) (x : ℤ) (lo hi : ℕ) : ℕ → ℕ
  | 0 => lo
  | fuel + 1 =>
    if lo < hi then
      let mid := (lo + hi) / 2
      if x < (a.getD mid 0 : ℤ) then bisectAux a x lo mid fuel
      else bisectAux a x (mid + 1) hi fuel
    else lo

/-- `bisect.bisect(a, x)`: rightmost insertion point of `x` in the sorted
list `a`. -/
def bisect (a : List ℕ) (x : ℤ) : ℕ := bisectAux a x 0 a.length a.length

/-- The object returned by `LmdbDataset.__getitem__`: the pickled payload is
abstracted to the key it was fetched under, plus the `id` attribute set by the
method. -/
structure LmdbItem : Type where
  key : ℕ
  id : String
deriving Repr, DecidableEq

/-- The index arithmetic of `__getitem__`: `db_idx = bisect.bisect(
self._keylen_cumulative, idx)` and `el_idx = idx - self._keylen_cumulative[
db_idx - 1] if db_idx != 0 else idx`. -/
def LmdbState.locate (st : LmdbState) (idx : ℤ) : ℕ × ℤ :=
  let db_idx := bisect st.keylen_cumulative idx
  (db_idx, if db_idx ≠ 0 then idx - (st.keylen_cumulative.getD (db_idx - 1) 0 : ℤ) else idx)

/-- `LmdbDataset.__getitem__(idx)`: locate the database and element index,
`assert el_idx >= 0`, fetch `self._keys[db_idx][el_idx]` from
`self.envs[db_idx]` (an out-of-range access raises `IndexError`), and attach
`data_object.id = f-string of db_idx and el_idx`. -/
def LmdbState.getitem (st : LmdbState) (idx : ℤ) : Except PyError LmdbItem :=
  let db_idx := (st.locate idx).1
  let el_idx := (st.locate idx).2
  if el_idx < 0 then .error (.assertionError "el_idx >= 0")
  else if db_idx < st.keys.length then
    let ks := st.keys.getD db_idx []
    if el_idx.toNat < ks.length then
      .ok { key := ks.getD el_idx.toNat 0,
            id := toString db_idx ++ "_" ++ toString el_idx }
    else .error (.indexError "list index out of range")
  else .error (.indexError "list index out of range")

/-- Concrete length store for the C9 witness: database `a.lmdb` holds 2
samples, every other database 1. -/
def lmdbStoreW : String → ℕ := fun p => if p = "data/a.lmdb" then 2 else 1

/-- The dataset state built by `lmdbInit` on the C9 witness directory. -/
def lmdbStateW : LmdbState :=
  { path := "data", metadata_path := "data/metadata.npz",
    envs := [connect_db "data/a.lmdb", connect_db "data/b.lmdb"],
    keys := [[0, 1], [0]], keylen_cumulative := [2, 3], num_samples := 3 }

/-- The hyper-parameters stored by `MPCA.__init__` (after its `max_iter`
validation). -/
structure MPCA : Type where
  var_ratio : ℚ
  max_iter : ℕ
  vectorise : Bool
  n_components : Option ℕ
deriving Repr, DecidableEq

/-- The attributes of an `MPCA` instance after a successful `_fit`. -/
structure MPCAFitted : Type where
  var_ratio : ℚ
  max_iter : ℕ
  vectorise : Bool
  n_components : Option ℕ
  proj_mats : List Tensor
  idx_order : List ℕ
  mean_ : Tensor
  shape_in : List ℕ
  shape_out : List ℕ
  n_dim : ℕ
deriving Repr, DecidableEq

/-- The external eigen-solver `np.linalg.eig`, abstracted: it returns the
pair `(eig_values, eig_vectors)` with eigenvectors as columns. -/
abbrev EigFn := Tensor → List ℚ × Tensor

/-- `(-1 * eig_values).argsort()`: the indices of the eigenvalues in
decreasing value order (a stable sort models numpy's unspecified tie
order). -/
def argsortDesc (v : List ℚ) : List ℕ :=
  (List.range v.length).insertionSort (fun i j => v.getD j 0 ≤ v.getD i 0)

/-- The first loop of `_fit`: the mode-`i` scatter matrix
`phi[i] = sum_j unfold(X_[j], i-1) @ unfold(X_[j], i-1).T`. -/
def scatterPhi (X_ : Tensor) (i : ℕ) : Tensor :=
  let d := X_.shape.getD i 0
  (List.range (X_.shape.headD 0)).foldl
    (fun acc j =>
      let U := (X_.sampleSlice j).unfoldMode (i - 1)
      matAdd acc (matMul U U.transpose2))
    (zeroMat d d)

/-- A Python `for ... if cond: break` search: the first element of the list
satisfying `p`. -/
def findBreak (p : ℕ → Prop) [DecidablePred p] : List ℕ → Option ℕ
  | [] => none
  | j :: t => if p j then some j else findBreak p t

/-- One mode of the second loop of `_fit`: eigendecompose `phi[i]`, find the
first `j in range(1, len(cum) + 1)` whose leading eigenvalue mass strictly
exceeds `var_ratio` (this entry is appended to `shape_out`), and build
`eig_vectors[:, idx_sorted][:, :shape_out[i-1]].T`.  When no `j` breaks the
loop, nothing is appended and the subsequent `shape_out[i - 1]` raises
`IndexError`; that abort is modelled as `none`. -/
def buildStep (eig : EigFn) (ratio : ℚ) (X_ : Tensor) (i : ℕ) : Option (ℕ × Tensor) :=
  let vals := (eig (scatterPhi X_ i)).1
  let vecs := (eig (scatterPhi X_ i)).2
  let idx := argsortDesc vals
  let cum := idx.map (fun k => vals.getD k 0)
  let tot := cum.sum
  (findBreak (fun j => ratio < (cum.take j).sum / tot) (List.range' 1 vals.length)).map
    (fun P => (P, (sliceColsUpTo (colPerm vecs idx) P).transpose2))

/-- Sequential mapping over a list, aborting at the first failure (models a
Python loop of appends that can raise). -/
def optMapM {α β : Type} (f : α → Option β) : List α → Option (List β)
  | [] => some []
  | a :: t => (f a).bind (fun b => (optMapM f t).map (fun r => b :: r))

/-- The scatter matrix of the full-projection optimisation loop for mode `i`:
every sample is first projected along all other modes by the current
projection matrices, then unfolded along mode `i - 1`
(`phi[i] = Xj_unfold @ Xj_unfold.T + phi[i]`). -/
def loopPhiMode (X_ : Tensor) (n_dim : ℕ) (pm : List Tensor) (i : ℕ) : Tensor :=
  let others := (List.range (n_dim - 1)).filter (fun mo => mo ≠ i - 1)
  let d := X_.shape.getD i 0
  (List.range (X_.shape.headD 0)).foldl
    (fun acc j =>
      let Xj := X_.sampleSlice j
      let Xj2 := multi_mode_dot Xj (others.map (fun mo => pm.getD mo default)) others false
      let U := Xj2.unfoldMode (i - 1)
      matAdd (matMul U U.transpose2) acc)
    (zeroMat d d)

/-- The update of `proj_mats[i - 1]` inside the optimisation loop: the
transposed leading `shape_out[i - 1]` sorted eigenvectors of the projected
scatter matrix. -/
def iterModeUpd (eig : EigFn) (X_ : Tensor) (n_dim : ℕ) (shape_out : List ℕ)
    (pm : List Tensor) (i : ℕ) : List Tensor :=
  let phi := loopPhiMode X_ n_dim pm i
  let vals := (eig phi).1
  let vecs := (eig phi).2
  let idx := argsortDesc vals
  pm.set (i - 1) ((sliceColsUpTo (colPerm vecs idx) (shape_out.getD (i - 1) 0)).transpose2)

/-- One pass (`i_iter`) of the optimisation loop of `_fit`: update the
projection matrix of every mode `i in range(1, n_dim)` in order (each mode
sees the updates already made for earlier modes). -/
def iterStepFn (eig : EigFn) (X_ : Tensor) (n_dim : ℕ) (shape_out : List ℕ)
    (pm : List Tensor) : List Tensor :=
  (List.range' 1 (n_dim - 1)).foldl (iterModeUpd eig X_ n_dim shape_out) pm

/-- `MPCA._fit(X)` for a freshly constructed instance.  `none` models an
uncaught exception: either a mode where the variance threshold is never
exceeded (`IndexError`, see `buildStep`), or the
`vectorise and isinstance(n_components, int)` branch, which reads
`self.shape_out` before that attribute is first assigned and therefore
raises `AttributeError` on a fresh instance. -/
def mpcaPrivateFit (eig : EigFn) (m : MPCA) (X : Tensor) : Option MPCAFitted :=
  let n_dim := X.ndim
  let shape_in := X.shape.tail
  let mean_ := meanAxis0 X
  let X_ := subAxis0 X mean_
  (optMapM (buildStep eig m.var_ratio X_) (List.range' 1 (n_dim - 1))).bind (fun sp =>
    let shape_out := sp.map Prod.fst
    let pm0 := sp.map Prod.snd
    if m.vectorise ∧ m.n_components.isSome then none
    else
      let pm := (List.range m.max_iter).foldl
        (fun p _ => iterStepFn eig X_ n_dim shape_out p) pm0
      let tensor_pc := multi_mode_dot X_ pm (List.range' 1 (n_dim - 1)) false
      let tpv := tensor_pc.unfoldMode 0
      let dg := matDiag (matMul tpv.transpose2 tpv)
      some { var_ratio := m.var_ratio, max_iter := m.max_iter, vectorise := m.vectorise,
             n_components := m.n_components, proj_mats := pm, idx_order := argsortDesc dg,
             mean_ := mean_, shape_in := shape_in, shape_out := shape_out, n_dim := n_dim })

/-- `MPCA.fit(X, y)`: `self._fit(X); return self` — the ignored `y` argument
is accepted and the (fitted) instance itself is the result. -/
def MPCA.fit (eig : EigFn) (m : MPCA) (X : Tensor) (y : Option ℤ) : Option MPCAFitted :=
  mpcaPrivateFit eig m X

/-- `MPCA.transform(X)`: validate the order and shape of `X`, subtract the
training mean in place (`X -= self.mean_`), project, and vectorise / truncate
when configured.  The result pairs the return value with the final value of
the caller's array `X`. -/
def MPCAFitted.transform (m : MPCAFitted) (X : Tensor) :
    Except PyError (Tensor × Tensor) := do
  check_dim_shape X m.n_dim m.shape_in
  let X2 := subAxis0 X m.mean_
  let tensor_pc := multi_mode_dot X2 m.proj_mats (List.range' 1 (m.n_dim - 1)) false
  if m.vectorise then
    let t1 := tensor_pc.unfoldMode 0
    let t2 := colPerm t1 m.idx_order
    match m.n_components with
    | some k => return (sliceColsUpTo t2 k, X2)
    | none => return (t2, X2)
  else
    return (tensor_pc, X2)

/-- `MPCA.inverse_transform(X, add_mean=False)`.  For a vectorised input
(`X.ndim <= 2`) the source executes
`X_[:, : self.idx_order[: n_feat]] = X[:]`: the slice bound
`self.idx_order[: n_feat]` is an integer *array*; numpy accepts it as a slice
index only when it has exactly one element (converting it to an integer
bound, with broadcasting of the right-hand side), and otherwise raises
`TypeError: only integer scalar arrays can be converted to a scalar index`. -/
def MPCAFitted.inverse_transform (m : MPCAFitted) (X : Tensor) (add_mean : Bool) :
    Except PyError Tensor := do
  let X2 : Tensor ←
    if X.ndim ≤ 2 then do
      let X1 := if X.ndim = 1 then (⟨[1, X.data.length], X.data⟩ : Tensor) else X
      let n_spl := X1.shape.getD 0 0
      let n_feat := X1.shape.getD 1 0
      let prodOut := m.shape_out.prod
      if n_feat ≤ prodOut then do
        let stop := m.idx_order.take n_feat
        if stop.length = 1 then do
          let k := min (stop.headD 0) prodOut
          if n_feat = k ∨ n_feat = 1 then
            pure (foldAt (mkMat n_spl prodOut (fun a b =>
              if b < k then (if n_feat = 1 then X1.entry a 0 else X1.entry a b) else 0))
              0 (n_spl :: m.shape_out))
          else throw (.valueError "could not broadcast input array")
        else throw (.typeError "only integer scalar arrays can be converted to a scalar index")
      else throw (.valueError "Feature dimension exceeds the shape upper limit.")
    else pure X
  let X_rec := multi_mode_dot X2 m.proj_mats (List.range' 1 (m.n_dim - 1)) true
  if add_mean then return addAxis0 X_rec m.mean_ else return X_rec

/-- The `d × d` identity matrix. -/
def identityMat (d : ℕ) : Tensor := mkMat d d (fun i j => if i = j then 1 else 0)

/-- A concrete eigen-solver that is exact on diagonal matrices: the
eigenvalues are the diagonal entries and the eigenvectors the standard basis
columns.  Used to instantiate the abstract `np.linalg.eig` parameter on
witness inputs whose scatter matrices are diagonal. -/
def eigDiag : EigFn := fun A => (matDiag A, identityMat A.rows)

/-- A concrete fitted state (produced by `mpcaPrivateFit eigDiag` on
`mpcaX2` with `var_ratio = 1/2`), used as the C8 witness instance. -/
def mpcaFittedW : MPCAFitted :=
  { var_ratio := 1/2, max_iter := 1, vectorise := false, n_components := none,
    proj_mats := [⟨[1, 2], [0, 1]⟩], idx_order := [0], mean_ := ⟨[2], [0, 0]⟩,
    shape_in := [2], shape_out := [1], n_dim := 2 }

/-- A concrete training set of four 2-vectors with zero mean and diagonal
scatter matrix. -/
def mpcaX2 : Tensor := ⟨[4, 2], [1, 0, -1, 0, 0, 2, 0, -2]⟩

/-- A concrete training set of four 2×2 samples with zero mean and diagonal
mode-1 and mode-2 scatter matrices. -/
def mpcaX3 : Tensor := ⟨[4, 2, 2], [1, 0, 0, 0, -1, 0, 0, 0, 0, 0, 0, 2, 0, 0, 0, -2]⟩

/-- A fitted state with `n_dim = 3` (the attribute state left by
`mpcaPrivateFit eigDiag` on four 2×2 training samples with `var_ratio =
1/2`). -/
def mpcaFitted3 : MPCAFitted :=
  { var_ratio := 1/2, max_iter := 1, vectorise := false, n_components := none,
    proj_mats := [⟨[1, 2], [0, 1]⟩, ⟨[1, 2], [0, 1]⟩], idx_order := [0],
    mean_ := ⟨[2, 2], [0, 0, 0, 0]⟩, shape_in := [2, 2], shape_out := [1, 1], n_dim := 3 }

/-- A fitted state with `vectorise = True` and `prod(shape_out) = 2` (the
attribute state left by `mpcaPrivateFit eigDiag` on `mpcaX2` with
`var_ratio = 9/10`). -/
def mpcaFittedV : MPCAFitted :=
  { var_ratio := 9/10, max_iter := 1, vectorise := true, n_components := none,
    proj_mats := [⟨[2, 2], [0, 1, 1, 0]⟩], idx_order := [0, 1], mean_ := ⟨[2], [0, 0]⟩,
    shape_in := [2], shape_out := [2], n_dim := 2 }

/-- The eigenvalues sorted in decreasing order (specification side: the
values are sorted directly, independently of the argsort route the code
takes). -/
def sortDescQ (v : List ℚ) : List ℚ := v.insertionSort (fun a b => b ≤ a)

/-- The mass of the top `j` eigenvalues relative to the total, in the form
the code computes it: `sum(cum[:j]) / var_tot`. -/
def topFrac (v : List ℚ) (j : ℕ) : ℚ := ((sortDescQ v).take j).sum / v.sum

/-- C3 specification for one mode `i`: writing `(vals, vecs)` for the
eigen-pairs of the mode-`i` scatter matrix of the centred data, `P` is the
smallest `j ≥ 1` whose top-`j` eigenvalue mass (eigenvalues sorted in
decreasing order) strictly exceeds `varRatio`, and `M` consists of the
transposed leading `P` eigenvectors: row `r` of `M` is the eigenvector
column of the `r`-th largest eigenvalue. -/
def ModeEigSpec (eig : EigFn) (varRatio : ℚ) (X_ : Tensor) (i P : ℕ) (M : Tensor) : Prop :=
  1 ≤ P ∧ P ≤ (eig (scatterPhi X_ i)).1.length
  ∧ varRatio < topFrac (eig (scatterPhi X_ i)).1 P
  ∧ (∀ j, 1 ≤ j → varRatio < topFrac (eig (scatterPhi X_ i)).1 j → P ≤ j)
  ∧ ∃ p : List ℕ, p.Perm (List.range (eig (scatterPhi X_ i)).1.length)
      ∧ p.map (fun k => (eig (scatterPhi X_ i)).1.getD k 0) = sortDescQ (eig (scatterPhi X_ i)).1
      ∧ M.shape = [P, (eig (scatterPhi X_ i)).2.rows]
      ∧ ∀ r c, r < P → c < (eig (scatterPhi X_ i)).2.rows →
          M.entry r c = (eig (scatterPhi X_ i)).2.entry c (p.getD r 0)

/-- C3 specification for `_fit` as a whole: every mode satisfies
`ModeEigSpec` with the `P_i` recorded in `shape_out` and some initial
projection list `pm0`, and the final `proj_mats` is the full-projection
optimisation step iterated exactly `max_iter` times from `pm0`. -/
def MPCAFitSpec (eig : EigFn) (m : MPCA) (X : Tensor) (F : MPCAFitted) : Prop :=
  F.shape_out.length = X.ndim - 1
  ∧ ∃ pm0 : List Tensor,
      pm0.length = X.ndim - 1
      ∧ (∀ i, i < X.ndim - 1 →
          ModeEigSpec eig m.var_ratio (subAxis0 X (meanAxis0 X)) (i + 1)
            (F.shape_out.getD i 0) (pm0.getD i default))
      ∧ F.proj_mats
          = (iterStepFn eig (subAxis0 X (meanAxis0 X)) X.ndim F.shape_out)^[m.max_iter] pm0

/-- Hyper-parameters for the C3 witness run. -/
def mpcaHyperW : MPCA := ⟨1/2, 1, false, none⟩

/-- Training data for the C3 witness run: two centred scalar samples. -/
def mpcaXW : Tensor := ⟨[2, 1], [1, -1]⟩

/-- The fitted state `mpcaPrivateFit eigDiag mpcaHyperW mpcaXW` produces. -/
def mpcaFitResW : MPCAFitted :=
  { var_ratio := 1/2, max_iter := 1, vectorise := false, n_components := none,
    proj_mats := [⟨[1, 1], [1]⟩], idx_order := [0], mean_ := ⟨[1], [0]⟩,
    shape_in := [1], shape_out := [1], n_dim := 2 }

/-! ## Theorems -/

/-- C4: for 2-D tensors `x1`, `x2` with matching second dimension,
`calculate_distance(x1, x2, eps, COSINE)` has `(i, j)` entry equal to the dot
product of row `i` of `x1` and row `j` of `x2` divided by the product of their
L2 norms, the denominator being clamped below at `eps` (so it is never smaller
than `eps`). -/
theorem calculate_distance_cosine_entry {n m d : ℕ} (sqrt : ℚ → ℚ)
    (x1 : Matrix (Fin n) (Fin d) ℚ) (x2 : Matrix (Fin m) (Fin d) ℚ) (eps : ℚ)
    (i : Fin n) (j : Fin m) :
    calculate_distance sqrt x1 x2 eps DistanceMetric.COSINE i j
      = (∑ k, x1 i k * x2 j k)
        / max (sqrt (∑ k, x1 i k ^ 2) * sqrt (∑ k, x2 j k ^ 2)) eps
    ∧ eps ≤ max (sqrt (∑ k, x1 i k ^ 2) * sqrt (∑ k, x2 j k ^ 2)) eps := by
  constructor
  · simp [calculate_distance, elemDiv, torchMM, torchT, clampMin, broadcastMul,
      torchNormDim1, Matrix.mul_apply, Matrix.transpose_apply]
  · exact le_max_right _ _

/-- C10: calling `calculate_distance` with `x2` omitted (`None`) computes the
self-similarity matrix, i.e. equals the call with `x2 = x1`. -/
theorem calculate_distance_default_self {n d : ℕ} (sqrt : ℚ → ℚ)
    (x1 : Matrix (Fin n) (Fin d) ℚ) (eps : ℚ) :
    calculate_distanceOpt sqrt x1 none eps DistanceMetric.COSINE
      = calculate_distance sqrt x1 x1 eps DistanceMetric.COSINE := rfl

/-- C5: `LmdbDataset.__init__` opens exactly one LMDB environment per `.lmdb`
file found in the source directory — the opened handles are precisely
`connect_db` applied to each globbed path — and every opened handle is
read-only; no writable handle is ever opened. -/
theorem lmdb_init_envs_readonly (src : String) (fs : List String) (store : String → ℕ) :
    (lmdbInit src fs store).1 = (lmdbGlob fs).map (fun f => connect_db (src ++ "/" ++ f))
    ∧ ∀ e ∈ (lmdbInit src fs store).1, e.readonly = true := by
  unfold lmdbInit
  by_cases h : 0 < ((lmdbGlob fs).map (fun f => src ++ "/" ++ f)).length
  · simp only [h, if_pos, List.map_map]
    refine ⟨rfl, ?_⟩
    intro e he
    simp only [List.mem_map] at he
    obtain ⟨f, -, rfl⟩ := he
    rfl
  · simp only [h, if_neg, if_false]
    simp only [List.length_map, Nat.pos_iff_ne_zero, ne_eq, not_not,
      List.length_eq_zero] at h
    simp [h]

/-- C6: when the source directory holds no `.lmdb` file, construction fails
the assertion `len(db_paths) > 0` with the "No LMDBs found" message, and the
list of environments opened up to that point is empty. -/
theorem lmdb_init_empty_asserts (src : String) (fs : List String) (store : String → ℕ)
    (h : lmdbGlob fs = []) :
    lmdbInit src fs store = ([], .error (.assertionError ("No LMDBs found in " ++ src))) := by
  unfold lmdbInit
  simp [h]

/-- Witness for C6 at a concrete directory listing with no `.lmdb` file. -/
theorem lmdb_init_empty_asserts_witness :
    lmdbInit "data" ["foo.txt", "metadata.npz"] (fun _ => 5)
      = ([], .error (.assertionError "No LMDBs found in data")) :=
  lmdb_init_empty_asserts "data" ["foo.txt", "metadata.npz"] (fun _ => 5) (by decide)

theorem cumsum_length (l : List ℕ) : (cumsum l).length = l.length := by
  induction l with
  | nil => rfl
  | cons a t ih => simp [cumsum, ih]

theorem cumsum_getD (l : List ℕ) : ∀ i, i < l.length →
    (cumsum l).getD i 0 = (l.take (i + 1)).sum := by
  induction l with
  | nil => intro i hi; simp at hi
  | cons a t ih =>
    intro i hi
    cases i with
    | zero => simp [cumsum]
    | succ i =>
      have hi' : i < t.length := by simpa using hi
      have hi'' : i < (cumsum t).length := by rw [cumsum_length]; exact hi'
      simp only [cumsum, List.getD_cons_succ, List.getD_eq_getElem?_getD,
        List.getElem?_cons_succ, List.getElem?_map]
      rw [List.getElem?_eq_getElem hi'']
      have h2 := ih i hi'
      simp only [List.getD_eq_getElem?_getD, List.getElem?_eq_getElem hi'',
        Option.getD_some] at h2
      simp [h2, List.take_succ_cons]

theorem sum_take_mono (l : List ℕ) (i j : ℕ) (hij : i ≤ j) :
    (l.take i).sum ≤ (l.take j).sum := by
  have h : j = i + (j - i) := by omega
  rw [h, List.take_add, List.sum_append]
  exact Nat.le_add_right _ _

theorem cumsum_mono (l : List ℕ) (i j : ℕ) (hij : i ≤ j) (hj : j < l.length) :
    (cumsum l).getD i 0 ≤ (cumsum l).getD j 0 := by
  rw [cumsum_getD l i (lt_of_le_of_lt hij hj), cumsum_getD l j hj]
  exact sum_take_mono l (i + 1) (j + 1) (by omega)

theorem bisectAux_spec (a : List ℕ) (x : ℤ)
    (hmono : ∀ i j, i ≤ j → j < a.length → a.getD i 0 ≤ a.getD j 0) :
    ∀ (fuel lo hi : ℕ), lo ≤ hi → hi ≤ a.length → hi - lo ≤ fuel →
    (∀ i, i < lo → (a.getD i 0 : ℤ) ≤ x) →
    (∀ i, hi ≤ i → i < a.length → x < (a.getD i 0 : ℤ)) →
    bisectAux a x lo hi fuel ≤ a.length ∧
    (∀ i, i < bisectAux a x lo hi fuel → (a.getD i 0 : ℤ) ≤ x) ∧
    (∀ i, bisectAux a x lo hi fuel ≤ i → i < a.length → x < (a.getD i 0 : ℤ)) := by
  intro fuel
  induction fuel with
  | zero =>
    intro lo hi hlohi hhi hfuel hlow hhigh
    have : lo = hi := by omega
    subst this
    exact ⟨le_trans hlohi hhi, hlow, hhigh⟩
  | succ fuel ih =>
    intro lo hi hlohi hhi hfuel hlow hhigh
    by_cases hlt : lo < hi
    · simp only [bisectAux, hlt, if_pos]
      set mid := (lo + hi) / 2 with hmid
      have hmidlo : lo ≤ mid := by
        rw [hmid]
        rw [Nat.le_div_iff_mul_le (by omega : 0 < 2)]
        omega
      have hmidhi : mid < hi := by
        rw [hmid]
        rw [Nat.div_lt_iff_lt_mul (by omega : 0 < 2)]
        omega
      by_cases hx : x < (a.getD mid 0 : ℤ)
      · simp only [hx, if_pos]
        exact ih lo mid hmidlo (by omega) (by omega) hlow
          (fun i hmi hil =>
            lt_of_lt_of_le hx (by exact_mod_cast hmono mid i hmi hil))
      · simp only [hx, if_neg, if_false]
        have hx' : (a.getD mid 0 : ℤ) ≤ x := by omega
        refine ih (mid + 1) hi (by omega) hhi (by omega) ?_ hhigh
        intro i hi'
        have : a.getD i 0 ≤ a.getD mid 0 := hmono i mid (by omega) (by omega)
        calc ((a.getD i 0 : ℤ)) ≤ (a.getD mid 0 : ℤ) := by exact_mod_cast this
          _ ≤ x := hx'
    · simp only [bisectAux, hlt, if_neg, if_false]
      have : lo = hi := by omega
      subst this
      exact ⟨le_trans hlohi hhi, hlow, hhigh⟩

theorem bisect_spec (a : List ℕ) (x : ℤ)
    (hmono : ∀ i j, i ≤ j → j < a.length → a.getD i 0 ≤ a.getD j 0) :
    bisect a x ≤ a.length ∧
    (∀ i, i < bisect a x → (a.getD i 0 : ℤ) ≤ x) ∧
    (∀ i, bisect a x ≤ i → i < a.length → x < (a.getD i 0 : ℤ)) := by
  exact bisectAux_spec a x hmono a.length 0 a.length (by omega) le_rfl (by omega)
    (fun i hi => absurd hi (by omega)) (fun i hi hil => absurd hil (by omega))

theorem lmdbInit_ok (src : String) (fs : List String) (store : String → ℕ)
    (st : LmdbState) (hst : (lmdbInit src fs store).2 = .ok st) :
    st.keylen_cumulative = cumsum (st.keys.map List.length)
    ∧ st.num_samples = (st.keys.map List.length).sum := by
  unfold lmdbInit at hst
  dsimp only at hst
  rw [List.length_map] at hst
  by_cases h : 0 < (lmdbGlob fs).length
  · rw [if_pos h] at hst
    have hst' := Except.ok.inj hst
    subst hst'
    simp [List.map_map]
  · rw [if_neg h] at hst
    simp at hst

/-- C9: for every `0 ≤ idx < len(dataset)` of a successfully constructed
`LmdbDataset`, `__getitem__` maps `idx` through the cumulative per-database
key counts to `(db_idx, el_idx)` with `db_idx` in range,
`0 ≤ el_idx < len(self._keys[db_idx])`, and global position
`sum of the key counts before db_idx + el_idx = idx`; in particular the
internal assertion `el_idx >= 0` never fails and the returned object's `id`
field is the string `db_idx ++ "_" ++ el_idx`. -/
theorem lmdb_getitem_locates (src : String) (fs : List String) (store : String → ℕ)
    (st : LmdbState) (idx : ℤ)
    (hst : (lmdbInit src fs store).2 = .ok st)
    (h0 : 0 ≤ idx) (hlt : idx < (st.num_samples : ℤ)) :
    (st.locate idx).1 < st.keys.length
    ∧ 0 ≤ (st.locate idx).2
    ∧ (st.locate idx).2 < ((st.keys.getD (st.locate idx).1 []).length : ℤ)
    ∧ (((st.keys.map List.length).take (st.locate idx).1).sum : ℤ) + (st.locate idx).2 = idx
    ∧ st.getitem idx
        = .ok { key := (st.keys.getD (st.locate idx).1 []).getD (st.locate idx).2.toNat 0,
                id := toString (st.locate idx).1 ++ "_" ++ toString (st.locate idx).2 } := by
  obtain ⟨hcum, hns⟩ := lmdbInit_ok src fs store st hst
  have hkln : (st.keys.map List.length).length = st.keys.length := List.length_map _ _
  have hcl : st.keylen_cumulative.length = (st.keys.map List.length).length := by
    rw [hcum, cumsum_length]
  have hmono : ∀ i j, i ≤ j → j < st.keylen_cumulative.length →
      st.keylen_cumulative.getD i 0 ≤ st.keylen_cumulative.getD j 0 := by
    intro i j hij hj
    rw [hcum]
    exact cumsum_mono _ i j hij (by rw [← hcl]; exact hj)
  obtain ⟨hble, hlow, hhigh⟩ := bisect_spec st.keylen_cumulative idx hmono
  set kl := st.keys.map List.length with hkl
  set db := bisect st.keylen_cumulative idx with hdb
  have hloc1 : (st.locate idx).1 = db := by rw [hdb]; rfl
  have hloc2 : (st.locate idx).2
      = if db ≠ 0 then idx - (st.keylen_cumulative.getD (db - 1) 0 : ℤ) else idx := by
    rw [hdb]; rfl
  have hn0 : 0 < kl.length := by
    rcases Nat.eq_zero_or_pos kl.length with h | h
    · have hklnil : kl = [] := List.length_eq_zero.mp h
      rw [hns, hklnil] at hlt
      simp at hlt
      omega
    · exact h
  have hsum_last : st.keylen_cumulative.getD (kl.length - 1) 0 = kl.sum := by
    rw [hcum, cumsum_getD kl (kl.length - 1) (by omega)]
    have he : kl.length - 1 + 1 = kl.length := by omega
    rw [he, List.take_length]
  have hdblt : db < kl.length := by
    by_contra hge
    have hdbe : db = kl.length := by omega
    have h1 := hlow (kl.length - 1) (by omega)
    rw [hsum_last] at h1
    rw [hns] at hlt
    omega
  have hdbk : db < st.keys.length := by omega
  have hprev : db ≠ 0 → st.keylen_cumulative.getD (db - 1) 0 = (kl.take db).sum := by
    intro h
    rw [hcum, cumsum_getD kl (db - 1) (by omega)]
    have he : db - 1 + 1 = db := by omega
    rw [he]
  have hel : (st.locate idx).2 = idx - ((kl.take db).sum : ℤ) := by
    rw [hloc2]
    by_cases h : db = 0
    · simp [h]
    · rw [if_pos h, hprev h]
  have hcumdb : st.keylen_cumulative.getD db 0 = (kl.take db).sum + kl.getD db 0 := by
    rw [hcum, cumsum_getD kl db hdblt, List.take_succ, List.sum_append]
    congr 1
    rw [List.getElem?_eq_getElem hdblt]
    simp [List.getD_eq_getElem?_getD, List.getElem?_eq_getElem hdblt]
  have hple : ((kl.take db).sum : ℤ) ≤ idx := by
    by_cases h : db = 0
    · rw [h]
      simpa using h0
    · have h1 := hlow (db - 1) (by omega)
      rw [hprev h] at h1
      exact h1
  have hidxlt : idx < ((kl.take db).sum : ℤ) + (kl.getD db 0 : ℤ) := by
    have h2 := hhigh db le_rfl (by omega)
    rw [hcumdb] at h2
    omega
  have hlenks : (st.keys.getD db []).length = kl.getD db 0 := by
    rw [hkl]
    simp only [List.getD_eq_getElem?_getD, List.getElem?_map]
    rw [List.getElem?_eq_getElem hdbk]
    simp
  have helpos : 0 ≤ (st.locate idx).2 := by rw [hel]; omega
  have hellt : (st.locate idx).2 < ((st.keys.getD db []).length : ℤ) := by
    rw [hel, hlenks]
    omega
  have hgl : st.getitem idx
      = .ok { key := (st.keys.getD db []).getD (st.locate idx).2.toNat 0,
              id := toString db ++ "_" ++ toString (st.locate idx).2 } := by
    unfold LmdbState.getitem
    rw [hloc1]
    rw [if_neg (not_lt.mpr helpos), if_pos hdbk,
      if_pos (by omega : (st.locate idx).2.toNat < (st.keys.getD db []).length)]
  refine ⟨by rw [hloc1]; exact hdbk, helpos, by rw [hloc1]; exact hellt, ?_, ?_⟩
  · rw [hloc1, hel]
    omega
  · rw [hgl, hloc1]

/-- Witness for C9: the theorem applied at a concrete two-database dataset
and index 2, which lands in the second database at element 0. -/
theorem lmdb_getitem_locates_witness :
    (lmdbStateW.locate 2).1 < lmdbStateW.keys.length
    ∧ 0 ≤ (lmdbStateW.locate 2).2
    ∧ (lmdbStateW.locate 2).2 < ((lmdbStateW.keys.getD (lmdbStateW.locate 2).1 []).length : ℤ)
    ∧ (((lmdbStateW.keys.map List.length).take (lmdbStateW.locate 2).1).sum : ℤ)
        + (lmdbStateW.locate 2).2 = 2
    ∧ lmdbStateW.getitem 2
        = .ok { key := (lmdbStateW.keys.getD (lmdbStateW.locate 2).1 []).getD
                  (lmdbStateW.locate 2).2.toNat 0,
                id := toString (lmdbStateW.locate 2).1 ++ "_"
                  ++ toString (lmdbStateW.locate 2).2 } :=
  lmdb_getitem_locates "data" ["b.lmdb", "a.lmdb", "notes.txt"] lmdbStoreW lmdbStateW 2
    (by decide) (by decide) (by decide)

/-- C7: `MPCA.fit(X, y)` ignores `y` entirely and returns the instance
itself — the very state `_fit` leaves on `self` — for every eigen-solver,
hyper-parameter record and input tensor. -/
theorem mpca_fit_returns_self (eig : EigFn) (m : MPCA) (X : Tensor) (y : Option ℤ) :
    MPCA.fit eig m X y = mpcaPrivateFit eig m X := rfl

/-- C8: `MPCA.transform` mutates its argument in place: for every fitted
state and every input of the trained order and shape, after the call the
caller's array (the second component of the embedded result) holds
`X - self.mean_`. -/
theorem mpca_transform_mutates (m : MPCAFitted) (X : Tensor)
    (h1 : X.ndim = m.n_dim) (h2 : X.shape.tail = m.shape_in) :
    (m.transform X).map Prod.snd = .ok (subAxis0 X m.mean_) := by
  have hc : check_dim_shape X m.n_dim m.shape_in = .ok () := by
    unfold check_dim_shape check_ndim check_shape
    rw [if_pos h1, if_pos h2]
    rfl
  unfold MPCAFitted.transform
  rw [hc]
  by_cases hv : m.vectorise
  · cases hnc : m.n_components <;>
      simp [hv, hnc, Except.map, Except.bind, Bind.bind, pure, Except.pure]
  · simp [hv, Except.map, Except.bind, Bind.bind, pure, Except.pure]

/-- Witness for C8 at the concrete fitted state and matching input. -/
theorem mpca_transform_mutates_witness :
    (mpcaFittedW.transform mpcaX2).map Prod.snd = .ok (subAxis0 mpcaX2 mpcaFittedW.mean_) :=
  mpca_transform_mutates mpcaFittedW mpcaX2 (by decide) (by decide)

theorem rangeEval1 : List.range 1 = [0] := rfl

theorem rangeEval2 : List.range 2 = [0, 1] := rfl

theorem rangeEval1p1 : List.range' 1 1 = [1] := rfl

/-- C1 (evaluating the code at the failing input): an MPCA fitted on 3-mode
data, given a 2-mode input, raises `AttributeError` from `transform` — the
message formatting of `_check_ndim` reads the non-existent attribute
`x.n_dim` — rather than the `ValueError` the claim states.  (A shape
mismatch at matching order does raise `ValueError`, see `check_shape`.) -/
theorem mpca_transform_wrong_order_attribute_error :
    mpcaFitted3.transform ⟨[2, 2], [1, 0, 0, 1]⟩ = .error (.attributeError "n_dim") := by
  decide

/-- C2 (evaluating the code at the failing input): with `vectorise=True` (and
`n_components=None`), `inverse_transform(transform(X))` on a fitted MPCA with
`prod(shape_out) = 2` raises
`TypeError: only integer scalar arrays can be converted to a scalar index`
at `X_[:, : self.idx_order[: n_feat]] = X[:]` instead of returning a tensor
of the original shape. -/
theorem mpca_roundtrip_vectorised_type_error :
    (mpcaFittedV.transform mpcaX2).bind (fun p => mpcaFittedV.inverse_transform p.1 false)
      = .error (.typeError "only integer scalar arrays can be converted to a scalar index") := by
  decide

theorem mkMat_shape (r c : ℕ) (f : ℕ → ℕ → ℚ) : (mkMat r c f).shape = [r, c] := rfl

theorem mkMat_rows (r c : ℕ) (f : ℕ → ℕ → ℚ) : (mkMat r c f).rows = r := rfl

theorem mkMat_cols (r c : ℕ) (f : ℕ → ℕ → ℚ) : (mkMat r c f).cols = c := rfl

theorem mkMat_entry (r c : ℕ) (f : ℕ → ℕ → ℚ) (i j : ℕ) (h1 : i < r) (h2 : j < c) :
    (mkMat r c f).entry i j = f i j := by
  have hc : 0 < c := lt_of_le_of_lt (Nat.zero_le j) h2
  have hlt : i * c + j < r * c := by
    calc i * c + j < i * c + c := by omega
    _ = (i + 1) * c := by ring
    _ ≤ r * c := Nat.mul_le_mul_right c h1
  show (mkMat r c f).data.getD (i * (mkMat r c f).shape.getD 1 0 + j) 0 = f i j
  rw [mkMat_shape]
  simp only [List.getD_cons_succ, List.getD_cons_zero]
  simp only [mkMat, List.getD_eq_getElem?_getD, List.getElem?_map, List.getElem?_range hlt]
  have hdiv : (i * c + j) / c = i := by
    rw [Nat.mul_comm i c, Nat.mul_add_div hc, Nat.div_eq_of_lt h2]
    omega
  have hmod : (i * c + j) % c = j := by
    rw [Nat.mul_comm i c, Nat.mul_add_mod, Nat.mod_eq_of_lt h2]
  simp [hdiv, hmod]

theorem optMapM_eq_some {α β : Type} (f : α → Option β) :
    ∀ (l : List α) (r : List β), optMapM f l = some r →
      r.length = l.length ∧ ∀ i (h1 : i < l.length) (h2 : i < r.length),
        f (l.get ⟨i, h1⟩) = some (r.get ⟨i, h2⟩) := by
  intro l
  induction l with
  | nil =>
    intro r hr
    simp only [optMapM, Option.some.injEq] at hr
    subst hr
    exact ⟨rfl, fun i h1 _ => by simp at h1⟩
  | cons a t ih =>
    intro r hr
    simp only [optMapM] at hr
    rcases Option.bind_eq_some.mp hr with ⟨b, hb, hrest⟩
    rcases Option.map_eq_some'.mp hrest with ⟨r', hr', hcons⟩
    subst hcons
    obtain ⟨hlen, hpt⟩ := ih r' hr'
    refine ⟨by simp [hlen], ?_⟩
    intro i h1 h2
    cases i with
    | zero => simpa using hb
    | succ i =>
      have h1' : i < t.length := by simpa using h1
      have h2' : i < r'.length := by simpa using h2
      simpa using hpt i h1' h2'

theorem findBreak_some {p : ℕ → Prop} [DecidablePred p] :
    ∀ {l : List ℕ} {j : ℕ}, findBreak p l = some j → p j ∧ j ∈ l := by
  intro l
  induction l with
  | nil => intro j hj; simp [findBreak] at hj
  | cons a t ih =>
    intro j hj
    by_cases hp : p a
    · simp only [findBreak, if_pos hp, Option.some.injEq] at hj
      subst hj
      exact ⟨hp, List.mem_cons_self _ _⟩
    · simp only [findBreak, if_neg hp] at hj
      obtain ⟨h1, h2⟩ := ih hj
      exact ⟨h1, List.mem_cons_of_mem _ h2⟩

theorem findBreak_least {p : ℕ → Prop} [DecidablePred p] :
    ∀ {l : List ℕ} {j : ℕ}, l.Sorted (· ≤ ·) → findBreak p l = some j →
      ∀ i ∈ l, p i → j ≤ i := by
  intro l
  induction l with
  | nil => intro j _ hj; simp [findBreak] at hj
  | cons a t ih =>
    intro j hs hj i hi hpi
    have hs' := List.sorted_cons.mp hs
    by_cases hp : p a
    · simp only [findBreak, if_pos hp, Option.some.injEq] at hj
      subst hj
      rcases List.mem_cons.mp hi with rfl | hit
      · exact le_refl _
      · exact hs'.1 i hit
    · simp only [findBreak, if_neg hp] at hj
      rcases List.mem_cons.mp hi with rfl | hit
      · exact absurd hpi hp
      · exact ih hs'.2 hj i hit hpi

theorem foldl_const_iterate {α : Type} (g : α → α) :
    ∀ (n : ℕ) (x : α), (List.range n).foldl (fun a _ => g a) x = g^[n] x := by
  intro n
  induction n with
  | zero => intro x; rfl
  | succ n ih =>
    intro x
    rw [List.range_succ, List.foldl_append, Function.iterate_succ_apply', ih]
    rfl

theorem map_getD_range (v : List ℚ) :
    (List.range v.length).map (fun k => v.getD k 0) = v := by
  refine List.ext_getElem (by simp) ?_
  intro i h1 h2
  simp only [List.getElem_map, List.getElem_range, List.getD_eq_getElem?_getD,
    List.getElem?_eq_getElem h2, Option.getD_some]

theorem argsortDesc_spec (v : List ℚ) :
    (argsortDesc v).Perm (List.range v.length)
    ∧ (argsortDesc v).map (fun k => v.getD k 0) = sortDescQ v
    ∧ (argsortDesc v).length = v.length := by
  haveI instTot : IsTotal ℕ (fun i j => v.getD j 0 ≤ v.getD i 0) :=
    ⟨fun a b => le_total (v.getD b 0) (v.getD a 0)⟩
  haveI instTrans : IsTrans ℕ (fun i j => v.getD j 0 ≤ v.getD i 0) :=
    ⟨fun _ _ _ hab hbc => le_trans hbc hab⟩
  haveI instTotQ : IsTotal ℚ (fun a b => b ≤ a) := ⟨fun a b => le_total b a⟩
  haveI instTransQ : IsTrans ℚ (fun a b => b ≤ a) := ⟨fun _ _ _ h1 h2 => le_trans h2 h1⟩
  haveI instAntiQ : IsAntisymm ℚ (fun a b => b ≤ a) := ⟨fun a b h1 h2 => le_antisymm h2 h1⟩
  have hperm : (argsortDesc v).Perm (List.range v.length) :=
    List.perm_insertionSort _ _
  have hlen : (argsortDesc v).length = v.length := by
    rw [hperm.length_eq, List.length_range]
  refine ⟨hperm, ?_, hlen⟩
  have hs1 : ((argsortDesc v).map (fun k => v.getD k 0)).Sorted (fun a b => b ≤ a) := by
    have hs := List.sorted_insertionSort (fun i j => v.getD j 0 ≤ v.getD i 0)
      (List.range v.length)
    exact List.Pairwise.map _ (fun a b hab => hab) hs
  have hs2 : (sortDescQ v).Sorted (fun a b => b ≤ a) :=
    List.sorted_insertionSort _ v
  have hp : ((argsortDesc v).map (fun k => v.getD k 0)).Perm (sortDescQ v) := by
    have h1 : ((argsortDesc v).map (fun k => v.getD k 0)).Perm
        ((List.range v.length).map (fun k => v.getD k 0)) := hperm.map _
    rw [map_getD_range] at h1
    exact h1.trans (List.perm_insertionSort _ v).symm
  exact List.eq_of_perm_of_sorted hp hs1 hs2

theorem getD_map_pair_fst (l : List (ℕ × Tensor)) (i : ℕ) (h : i < l.length) :
    (l.map Prod.fst).getD i 0 = (l.get ⟨i, h⟩).1 := by
  rw [List.getD_eq_getElem?_getD, List.getElem?_map, List.getElem?_eq_getElem h]
  simp

theorem getD_map_pair_snd (l : List (ℕ × Tensor)) (i : ℕ) (h : i < l.length) :
    (l.map Prod.snd).getD i default = (l.get ⟨i, h⟩).2 := by
  rw [List.getD_eq_getElem?_getD, List.getElem?_map, List.getElem?_eq_getElem h]
  simp

/-- C3: `MPCA._fit` implements the published MPCA eigen-decomposition. -/
theorem mpca_fit_eigen_selection (eig : EigFn) (m : MPCA) (X : Tensor) (F : MPCAFitted)
    (hfit : mpcaPrivateFit eig m X = some F) : MPCAFitSpec eig m X F := by
  unfold mpcaPrivateFit at hfit
  dsimp only at hfit
  rcases Option.bind_eq_some.mp hfit with ⟨sp, hsp, hrest⟩
  by_cases hvn : m.vectorise ∧ m.n_components.isSome
  · rw [if_pos hvn] at hrest
    exact absurd hrest (by simp)
  · rw [if_neg hvn] at hrest
    have hF := Option.some.inj hrest
    subst hF
    obtain ⟨hlen, hpt⟩ := optMapM_eq_some _ _ _ hsp
    rw [List.length_range'] at hlen
    refine ⟨by simpa using hlen, sp.map Prod.snd, by simpa using hlen, ?_, ?_⟩
    · intro i hi
      have hisp : i < sp.length := by omega
      have hrng : i < (List.range' 1 (X.ndim - 1)).length := by
        rw [List.length_range']; omega
      have hbs : buildStep eig m.var_ratio (subAxis0 X (meanAxis0 X)) (i + 1)
          = some (sp.get ⟨i, hisp⟩) := by
        have h := hpt i hrng hisp
        simpa [List.get_eq_getElem, Nat.add_comm] using h
      rw [getD_map_pair_fst sp i hisp, getD_map_pair_snd sp i hisp]
      rcases he : eig (scatterPhi (subAxis0 X (meanAxis0 X)) (i + 1)) with ⟨vals, vecs⟩
      dsimp only [buildStep] at hbs
      rw [he] at hbs
      dsimp only at hbs
      rcases Option.map_eq_some'.mp hbs with ⟨P, hfb, hpair⟩
      obtain ⟨hperm, hmap, hlenv⟩ := argsortDesc_spec vals
      have hsum : (sortDescQ vals).sum = vals.sum := (List.perm_insertionSort _ vals).sum_eq
      have htf : ∀ j : ℕ, ((sortDescQ vals).take j).sum / vals.sum = topFrac vals j :=
        fun _ => rfl
      simp only [hmap, hsum, htf] at hfb
      obtain ⟨hcond, hmem⟩ := findBreak_some hfb
      rw [List.mem_range'] at hmem
      obtain ⟨k, hk, hPk⟩ := hmem
      have hP1 : 1 ≤ P := by omega
      have hPle : P ≤ vals.length := by omega
      have hsorted : (List.range' 1 vals.length).Sorted (fun a b => a ≤ b) :=
        (List.pairwise_lt_range' 1 vals.length 1 (by norm_num)).imp le_of_lt
      have hleast : ∀ j, 1 ≤ j → m.var_ratio < topFrac vals j → P ≤ j := by
        intro j h1 h2
        by_cases hj : j ≤ vals.length
        · exact findBreak_least hsorted hfb j
            (List.mem_range'.mpr ⟨j - 1, by omega, by omega⟩) h2
        · omega
      unfold ModeEigSpec
      rw [he, ← hpair]
      dsimp only
      have hcolsCP : (colPerm vecs (argsortDesc vals)).cols = vals.length := by
        unfold colPerm
        rw [mkMat_cols, hlenv]
      have hrowsCP : (colPerm vecs (argsortDesc vals)).rows = vecs.rows := by
        unfold colPerm
        rw [mkMat_rows]
      have hcolsSl : (sliceColsUpTo (colPerm vecs (argsortDesc vals)) P).cols = P := by
        unfold sliceColsUpTo
        rw [mkMat_cols, hcolsCP]
        exact min_eq_left hPle
      have hrowsSl : (sliceColsUpTo (colPerm vecs (argsortDesc vals)) P).rows
          = vecs.rows := by
        unfold sliceColsUpTo
        rw [mkMat_rows, hrowsCP]
      refine ⟨hP1, hPle, hcond, hleast, argsortDesc vals, hperm, hmap, ?_, ?_⟩
      · show ((sliceColsUpTo (colPerm vecs (argsortDesc vals)) P).transpose2).shape = _
        unfold Tensor.transpose2
        rw [mkMat_shape, hcolsSl, hrowsSl]
      · intro r c hr hc
        have e1 : ((sliceColsUpTo (colPerm vecs (argsortDesc vals)) P).transpose2).entry r c
            = (sliceColsUpTo (colPerm vecs (argsortDesc vals)) P).entry c r := by
          unfold Tensor.transpose2
          exact mkMat_entry _ _ _ r c (by rw [hcolsSl]; exact hr) (by rw [hrowsSl]; exact hc)
        have e2 : (sliceColsUpTo (colPerm vecs (argsortDesc vals)) P).entry c r
            = (colPerm vecs (argsortDesc vals)).entry c r := by
          unfold sliceColsUpTo
          refine mkMat_entry _ _ _ c r (by rw [hrowsCP]; exact hc) ?_
          rw [hcolsCP]
          have : P ⊓ vals.length = P := min_eq_left hPle
          omega
        have e3 : (colPerm vecs (argsortDesc vals)).entry c r
            = vecs.entry c ((argsortDesc vals).getD r 0) := by
          unfold colPerm
          exact mkMat_entry _ _ _ c r hc (by rw [hlenv]; omega)
        rw [e1, e2, e3]
    · dsimp only
      exact foldl_const_iterate _ _ _

/-- Concrete evaluation of `_fit` on the C3 witness run. -/
theorem mpcaPrivateFit_eval_witness :
    mpcaPrivateFit eigDiag mpcaHyperW mpcaXW = some mpcaFitResW := by
  have h1 : meanAxis0 ⟨[2, 1], [1, -1]⟩ = (⟨[1], [0]⟩ : Tensor) := by
    norm_num [meanAxis0, rangeEval1, rangeEval2]
  have h2 : subAxis0 ⟨[2, 1], [1, -1]⟩ ⟨[1], [0]⟩ = (⟨[2, 1], [1, -1]⟩ : Tensor) := by
    norm_num [subAxis0, rangeEval1, rangeEval2]
  have h3 : buildStep eigDiag (1/2) ⟨[2, 1], [1, -1]⟩ 1 = some (1, ⟨[1, 1], [1]⟩) := by
    norm_num [buildStep, scatterPhi, eigDiag, matDiag, matMul, matAdd, zeroMat, mkMat,
      Tensor.sampleSlice, Tensor.unfoldMode, Tensor.transpose2, Tensor.entry, Tensor.rows,
      Tensor.cols, argsortDesc, colPerm, sliceColsUpTo, identityMat, unflattenIx, flattenIx,
      insertCoord, List.insertionSort, List.orderedInsert, findBreak,
      rangeEval1, rangeEval2, rangeEval1p1]
  have h4 : iterStepFn eigDiag ⟨[2, 1], [1, -1]⟩ 2 [1] [⟨[1, 1], [1]⟩] = [⟨[1, 1], [1]⟩] := by
    norm_num [iterStepFn, iterModeUpd, loopPhiMode, multi_mode_dot, Tensor.mode_dot,
      foldAt, Tensor.unfoldMode, eigDiag, matDiag, matMul, matAdd, zeroMat, mkMat,
      Tensor.sampleSlice, Tensor.transpose2, Tensor.entry, Tensor.rows, Tensor.cols,
      argsortDesc, colPerm, sliceColsUpTo, identityMat, unflattenIx, flattenIx, insertCoord,
      List.insertionSort, List.orderedInsert, List.filter,
      rangeEval1, rangeEval2, rangeEval1p1]
  have h5 : multi_mode_dot ⟨[2, 1], [1, -1]⟩ [⟨[1, 1], [1]⟩] [1] false
      = (⟨[2, 1], [1, -1]⟩ : Tensor) := by
    norm_num [multi_mode_dot, Tensor.mode_dot, foldAt, Tensor.unfoldMode, matMul, mkMat,
      Tensor.transpose2, Tensor.entry, Tensor.rows, Tensor.cols, unflattenIx, flattenIx,
      insertCoord, rangeEval1, rangeEval2, rangeEval1p1]
  have h6 : argsortDesc (matDiag (matMul
      ((⟨[2, 1], [1, -1]⟩ : Tensor).unfoldMode 0).transpose2
      ((⟨[2, 1], [1, -1]⟩ : Tensor).unfoldMode 0))) = [0] := by
    norm_num [argsortDesc, matDiag, matMul, mkMat, Tensor.unfoldMode, Tensor.transpose2,
      Tensor.entry, Tensor.rows, Tensor.cols, unflattenIx, flattenIx, insertCoord,
      List.insertionSort, List.orderedInsert, rangeEval1, rangeEval2]
  show mpcaPrivateFit eigDiag mpcaHyperW mpcaXW = some mpcaFitResW
  unfold mpcaPrivateFit
  norm_num [Tensor.ndim, mpcaXW, mpcaHyperW, mpcaFitResW, h1, h2, h3, h4, h5, h6, optMapM,
    rangeEval1, rangeEval1p1]

/-- Witness for C3: the eigen-selection specification holds at the concrete
witness run. -/
theorem mpca_fit_eigen_selection_witness :
    MPCAFitSpec eigDiag mpcaHyperW mpcaXW mpcaFitResW :=
  mpca_fit_eigen_selection eigDiag mpcaHyperW mpcaXW mpcaFitResW mpcaPrivateFit_eval_witness
